import Mathlib

/-!
Verification of the go-sqlite driver repository: a shallow embedding of the
pure logic of the SQL driver core (error formatting, parameter binding,
statement iteration, row decoding, lock retry, result capture) together with
the benchmark/TPC-H helper algorithms, and theorems settling the spec claims.
-/

namespace GoSqlite

/-! ## Go fmt.Sprintf model (the subset used by the driver)

The driver formats error messages with fmt.Sprintf / fmt.Errorf using only
the verbs %s, %v (on strings and integer codes), %q and %d.  We model the
verb-substitution scan: the format string is scanned left to right, each verb
is replaced by the next rendered argument, and replaced text is not rescanned.
Arguments are passed pre-rendered as strings; %q wraps in double quotes and
%d / %v render integers in decimal, which callers do before calling. -/

def isVerbChar (c : Char) : Bool :=
  c = 's' || c = 'v' || c = 'q' || c = 'd'

def substVerbs : List Char → List String → List Char
  | [], _ => []
  | [c], _ => [c]
  | c :: v :: rest, args =>
    if c = '%' ∧ isVerbChar v then
      match args with
      | a :: args2 => a.data ++ substVerbs rest args2
      | [] => c :: substVerbs (v :: rest) args
    else c :: substVerbs (v :: rest) args

def sprintf (fmt : String) (args : List String) : String :=
  ⟨substVerbs fmt.data args⟩

/-- Rendering of a %q verb argument (Go quotes the string). -/
def quoteArg (s : String) : String := "\"" ++ s ++ "\""

/-! ## Error values and (*conn).errstr

Translated from (*conn).errstr in sqlite.go: the engine short code string
for rc and the current detailed error message of the connection are read
from the engine; the constructed Error depends only on those two strings
and rc, so we embed errstr as a pure function of them. -/

structure GoError where
  msg : String
  code : Int
deriving Repr, DecidableEq

def errstr (str msg : String) (rc : Int) : GoError :=
  if msg = str then
    { msg := sprintf "%s (%v)" [str, toString rc], code := rc }
  else
    { msg := sprintf "%s: %s (%v)" [str, msg, toString rc], code := rc }

theorem strAppend_assoc (a b c : String) : a ++ b ++ c = a ++ (b ++ c) := by
  apply String.ext
  simp [String.data_append]

theorem sprintf_sv (a b : String) :
    sprintf "%s (%v)" [a, b] = a ++ " (" ++ b ++ ")" := by
  apply String.ext
  have h1 : sprintf "%s (%v)" [a, b]
      = ⟨a.data ++ (' ' :: '(' :: (b.data ++ [')']))⟩ := rfl
  rw [h1]
  simp [String.data_append]

theorem sprintf_ssv (a b c : String) :
    sprintf "%s: %s (%v)" [a, b, c] = a ++ ": " ++ b ++ " (" ++ c ++ ")" := by
  apply String.ext
  have h1 : sprintf "%s: %s (%v)" [a, b, c]
      = ⟨a.data ++ (':' :: ' ' :: (b.data ++ (' ' :: '(' :: (c.data ++ [')']))))⟩ := rfl
  rw [h1]
  simp [String.data_append]

/-- C1: for every failure result code rc, the error value built by the
connection errstr operation has message "<str> (<rc>)" when the engine
short code string equals the detailed message, and "<str>: <msg> (<rc>)"
when they differ; the numeric code is rc in both cases. -/
theorem errstr_message (str msg : String) (rc : Int) :
    ((msg = str → (errstr str msg rc).msg = str ++ " (" ++ toString rc ++ ")") ∧
     (msg ≠ str → (errstr str msg rc).msg
        = str ++ ": " ++ msg ++ " (" ++ toString rc ++ ")")) ∧
    (errstr str msg rc).code = rc := by
  unfold errstr
  by_cases h : msg = str <;>
    simp [h, sprintf_sv, sprintf_ssv]

/-- Witness: errstr evaluated on the documented SQLITE_READONLY example and
on a differing-message example produces exactly the claimed strings. -/
theorem errstr_message_witness :
    (errstr "attempt to write a readonly database"
        "attempt to write a readonly database" 8).msg
      = "attempt to write a readonly database (8)" ∧
    (errstr "constraint failed" "UNIQUE constraint failed: hash.hashval" 1555).msg
      = "constraint failed: UNIQUE constraint failed: hash.hashval (1555)" := by
  constructor
  · have h := (errstr_message "attempt to write a readonly database"
      "attempt to write a readonly database" 8).1.1 rfl
    rw [h]; rfl
  · have h := (errstr_message "constraint failed"
      "UNIQUE constraint failed: hash.hashval" 1555).1.2 (by decide)
    rw [h]; rfl

/-! ## Benchmark number-to-words renderer

Translated from pronounceNum in benchmark/util.go.  The word tables are
the literal arrays of the source; the divisor loop over
[(1e9, "1e9"), (1e6, "million"), (1000, "thousand"), (100, "hundred")]
is inlined in list order, which for n >= 100 always hits a divisor, so
the trailing panic of the source is unreachable. -/

def onesWords : List String :=
  ["one", "two", "three", "four", "five", "six", "seven", "eight", "nine"]

def teensWords : List String :=
  ["ten", "eleven", "twelve", "thirteen", "fourteen", "fifteen", "sixteen",
   "seventeen", "eighteen", "nineteen"]

def tensWords : List String :=
  ["twenty", "thirty", "forty", "fifty", "sixty", "seventy", "eighty", "ninety"]

def groupName (d : Nat) : String :=
  if d = 1000000000 then "1e9"
  else if d = 1000000 then "million"
  else if d = 1000 then "thousand"
  else "hundred"

def pronounceNum (n : Nat) : String :=
  if _h0 : n = 0 then "zero"
  else if h1 : n < 10 then onesWords.getD (n - 1) ""
  else if h2 : n < 20 then teensWords.getD (n - 10) ""
  else if _h3 : n < 100 then
    let p := tensWords.getD (n / 10 - 2) ""
    if n % 10 = 0 then p else p ++ " " ++ pronounceNum (n % 10)
  else if _h4 : 1000000000 ≤ n then
    let p := pronounceNum (n / 1000000000) ++ " " ++ "1e9"
    if n % 1000000000 = 0 then p else p ++ " " ++ pronounceNum (n % 1000000000)
  else if _h5 : 1000000 ≤ n then
    let p := pronounceNum (n / 1000000) ++ " " ++ "million"
    if n % 1000000 = 0 then p else p ++ " " ++ pronounceNum (n % 1000000)
  else if _h6 : 1000 ≤ n then
    let p := pronounceNum (n / 1000) ++ " " ++ "thousand"
    if n % 1000 = 0 then p else p ++ " " ++ pronounceNum (n % 1000)
  else
    let p := pronounceNum (n / 100) ++ " " ++ "hundred"
    if n % 100 = 0 then p else p ++ " " ++ pronounceNum (n % 100)
termination_by n
decreasing_by all_goals omega

/-- C8: the number-to-words renderer returns "zero" for 0, the ones word
for 1..9, the teens word for 10..19, for 20..99 the tens word followed by
a space and the ones rendering exactly when n mod 10 is nonzero, and for
n >= 100, with d the largest of 1e9, 1e6, 1000, 100 not exceeding n, the
rendering of n/d, the group name of d, and a space and the rendering of
n mod d exactly when n mod d is nonzero. -/
theorem pronounceNum_spec (n : Nat) (hn : n < 4294967296) :
    (n = 0 → pronounceNum n = "zero") ∧
    (1 ≤ n → n ≤ 9 → pronounceNum n = onesWords.getD (n - 1) "") ∧
    (10 ≤ n → n ≤ 19 → pronounceNum n = teensWords.getD (n - 10) "") ∧
    (20 ≤ n → n ≤ 99 → pronounceNum n =
      tensWords.getD (n / 10 - 2) "" ++
        (if n % 10 = 0 then "" else " " ++ pronounceNum (n % 10))) ∧
    (100 ≤ n → ∃ d, d ∈ [1000000000, 1000000, 1000, 100] ∧ d ≤ n ∧
      (∀ d2 ∈ ([1000000000, 1000000, 1000, 100] : List Nat), d2 ≤ n → d2 ≤ d) ∧
      pronounceNum n = pronounceNum (n / d) ++ " " ++ groupName d ++
        (if n % d = 0 then "" else " " ++ pronounceNum (n % d))) := by
  refine ⟨?_, ?_, ?_, ?_, ?_⟩
  · rintro rfl
    rw [pronounceNum]
    simp
  · intro ha hb
    rw [pronounceNum]
    simp only [dif_neg (by omega : ¬n = 0), dif_pos (by omega : n < 10)]
  · intro ha hb
    rw [pronounceNum]
    simp only [dif_neg (by omega : ¬n = 0), dif_neg (by omega : ¬n < 10),
      dif_pos (by omega : n < 20)]
  · intro ha hb
    rw [pronounceNum]
    simp only [dif_neg (by omega : ¬n = 0), dif_neg (by omega : ¬n < 10),
      dif_neg (by omega : ¬n < 20), dif_pos (by omega : n < 100)]
    by_cases hz : n % 10 = 0 <;> simp [hz, strAppend_assoc]
  · intro ha
    rcases Nat.lt_or_ge n 1000 with hc | hc
    · refine ⟨100, by simp, by omega, ?_, ?_⟩
      · intro d2 hd2 hle
        simp only [List.mem_cons, List.mem_singleton] at hd2
        rcases hd2 with rfl | rfl | rfl | h
        · omega
        · omega
        · omega
        · simp at h; omega
      · rw [pronounceNum]
        simp only [dif_neg (by omega : ¬n = 0), dif_neg (by omega : ¬n < 10),
          dif_neg (by omega : ¬n < 20), dif_neg (by omega : ¬n < 100),
          dif_neg (by omega : ¬1000000000 ≤ n), dif_neg (by omega : ¬1000000 ≤ n),
          dif_neg (by omega : ¬1000 ≤ n)]
        by_cases hz : n % 100 = 0
        · simp [hz, groupName, strAppend_assoc]
        · simp [hz, groupName, strAppend_assoc]
          congr 1
    rcases Nat.lt_or_ge n 1000000 with hd | hd
    · refine ⟨1000, by simp, by omega, ?_, ?_⟩
      · intro d2 hd2 hle
        simp only [List.mem_cons, List.mem_singleton] at hd2
        rcases hd2 with rfl | rfl | rfl | h
        · omega
        · omega
        · omega
        · simp at h; omega
      · rw [pronounceNum]
        simp only [dif_neg (by omega : ¬n = 0), dif_neg (by omega : ¬n < 10),
          dif_neg (by omega : ¬n < 20), dif_neg (by omega : ¬n < 100),
          dif_neg (by omega : ¬1000000000 ≤ n), dif_neg (by omega : ¬1000000 ≤ n),
          dif_pos (by omega : 1000 ≤ n)]
        by_cases hz : n % 1000 = 0
        · simp [hz, groupName, strAppend_assoc]
        · simp [hz, groupName, strAppend_assoc]
          congr 1
    rcases Nat.lt_or_ge n 1000000000 with he | he
    · refine ⟨1000000, by simp, by omega, ?_, ?_⟩
      · intro d2 hd2 hle
        simp only [List.mem_cons, List.mem_singleton] at hd2
        rcases hd2 with rfl | rfl | rfl | h
        · omega
        · omega
        · omega
        · simp at h; omega
      · rw [pronounceNum]
        simp only [dif_neg (by omega : ¬n = 0), dif_neg (by omega : ¬n < 10),
          dif_neg (by omega : ¬n < 20), dif_neg (by omega : ¬n < 100),
          dif_neg (by omega : ¬1000000000 ≤ n), dif_pos (by omega : 1000000 ≤ n)]
        by_cases hz : n % 1000000 = 0
        · simp [hz, groupName, strAppend_assoc]
        · simp [hz, groupName, strAppend_assoc]
          congr 1
    · refine ⟨1000000000, by simp, by omega, ?_, ?_⟩
      · intro d2 hd2 hle
        simp only [List.mem_cons, List.mem_singleton] at hd2
        rcases hd2 with rfl | rfl | rfl | h
        · omega
        · omega
        · omega
        · simp at h; omega
      · rw [pronounceNum]
        simp only [dif_neg (by omega : ¬n = 0), dif_neg (by omega : ¬n < 10),
          dif_neg (by omega : ¬n < 20), dif_neg (by omega : ¬n < 100),
          dif_pos (by omega : 1000000000 ≤ n)]
        by_cases hz : n % 1000000000 = 0
        · simp [hz, groupName, strAppend_assoc]
        · simp [hz, groupName, strAppend_assoc]
          congr 1

/-- Witness: the renderer applied at 123456789 through the theorem. -/
theorem pronounceNum_spec_witness :
    (123456789 : Nat) < 4294967296 ∧
    (100 ≤ 123456789 → ∃ d, d ∈ [1000000000, 1000000, 1000, 100] ∧ d ≤ 123456789 ∧
      (∀ d2 ∈ ([1000000000, 1000000, 1000, 100] : List Nat), d2 ≤ 123456789 → d2 ≤ d) ∧
      pronounceNum 123456789 = pronounceNum (123456789 / d) ++ " " ++ groupName d ++
        (if 123456789 % d = 0 then "" else " " ++ pronounceNum (123456789 % d))) :=
  ⟨by norm_num, (pronounceNum_spec 123456789 (by norm_num)).2.2.2.2⟩

/-! ## TPC-H sparse order-key mapping

Translated from the dbgen routine genCustomerAndOrders: the zero-based
source key k (drawn unique within [1, SF*1500000], then decremented) is
mapped to the one-based order key k/8*32 + k%8 + 1. -/

def oOrderKey (k : Nat) : Nat := k / 8 * 32 + k % 8 + 1

/-- C9: the order-key mapping is injective (so distinct source keys never
collide), every generated key lies in [1, 4*SF*1500000] for source keys in
the drawn range, and the image is exactly the first 8 keys of each
consecutive block of 32 inside the key range. -/
theorem oOrderKey_spec (sf k m : Nat) (hk : k < sf * 1500000)
    (hm1 : 1 ≤ m) (hm2 : m ≤ 4 * (sf * 1500000)) :
    (∀ k1 k2 : Nat, oOrderKey k1 = oOrderKey k2 → k1 = k2) ∧
    (1 ≤ oOrderKey k ∧ oOrderKey k ≤ 4 * (sf * 1500000)) ∧
    ((∃ k2, k2 < sf * 1500000 ∧ oOrderKey k2 = m) ↔ (m - 1) % 32 < 8) := by
  refine ⟨?_, ?_, ?_, ?_⟩
  · intro k1 k2 h
    unfold oOrderKey at h
    omega
  · unfold oOrderKey
    omega
  · rintro ⟨k2, hk2, rfl⟩
    unfold oOrderKey
    omega
  · intro hfirst8
    refine ⟨(m - 1) / 32 * 8 + (m - 1) % 32, ?_, ?_⟩
    · omega
    · unfold oOrderKey
      omega

/-- Witness for the order-key theorem at sf = 1, k = 0, m = 33. -/
theorem oOrderKey_spec_witness :
    (0 : Nat) < 1 * 1500000 ∧ (1 : Nat) ≤ 33 ∧ (33 : Nat) ≤ 4 * (1 * 1500000) ∧
    (((∃ k2, k2 < 1 * 1500000 ∧ oOrderKey k2 = 33) ↔ (33 - 1) % 32 < 8)) := by
  refine ⟨by norm_num, by norm_num, by norm_num, ?_⟩
  exact (oOrderKey_spec 1 0 33 (by norm_num) (by norm_num) (by norm_num)).2.2

/-! ## result values: LastInsertId / RowsAffected

Translated from newResult, (*result).LastInsertId and
(*result).RowsAffected in sqlite.go.  A nil receiver is modelled by the
none case of an Option; newResult captures the current changes and
last-insert-rowid counters of the connection at construction time. -/

structure ConnCounters where
  changes : Int
  lastInsertRowID : Int

structure ResultV where
  lastInsertID : Int
  rowsAffected : Int

def newResult (c : ConnCounters) : ResultV :=
  { rowsAffected := c.changes, lastInsertID := c.lastInsertRowID }

def resultLastInsertId : Option ResultV → Int × Option GoError
  | none => (0, none)
  | some r => (r.lastInsertID, none)

def resultRowsAffected : Option ResultV → Int × Option GoError
  | none => (0, none)
  | some r => (r.rowsAffected, none)

/-! ## Go time.Time rendering and the default timestamp format

The bind code of sqlite.go hands a time.Time argument to bindText as
x.String().  We embed the documented Go rendering (layout
`2006-01-02 15:04:05.999999999 -0700 MST`, no monotonic reading) for a
broken-down time value, and, separately, the default `_time_format`
rendering required by the spec and by the TestTimeFormat regression test. -/

structure GoTime where
  year : Nat
  month : Nat
  day : Nat
  hour : Nat
  minute : Nat
  second : Nat
  nanos : Nat
  offMinutes : Int
  zoneName : String
deriving Repr

/-- Decimal rendering of n, left padded with zeros to width w. -/
def padNum (w n : Nat) : String :=
  let s := toString n
  ⟨List.replicate (w - s.length) '0' ++ s.data⟩

/-- Fractional-second rendering of the `.999999999` layout element: nine
digits with trailing zeros trimmed, omitted entirely when zero. -/
def goFrac (nanos : Nat) : String :=
  let d := (padNum 9 nanos).data
  let t := (d.reverse.dropWhile (fun c => c = '0')).reverse
  if t.isEmpty then "" else ⟨'.' :: t⟩

/-- Zone rendering of the `-0700` layout element. -/
def goOffset (off : Int) : String :=
  (if off < 0 then "-" else "+") ++ padNum 2 (off.natAbs / 60) ++ padNum 2 (off.natAbs % 60)

/-- The Go time.Time.String rendering of a wall-clock value. -/
def goTimeString (t : GoTime) : String :=
  padNum 4 t.year ++ "-" ++ padNum 2 t.month ++ "-" ++ padNum 2 t.day ++ " " ++
    padNum 2 t.hour ++ ":" ++ padNum 2 t.minute ++ ":" ++ padNum 2 t.second ++
    goFrac t.nanos ++ " " ++ goOffset t.offMinutes ++ " " ++ t.zoneName

/-- Modelled from the spec: the default `_time_format` rendering
`YYYY-MM-DD HH:MM:SS.nnnnnnnnn+HH:MM` (year-month-day, space, time with
nanoseconds, then a colon-separated numeric zone offset and nothing after
it).  The DSN `_time_format` handling itself is not among the source
files; only its regression test is, and the test expects exactly this
rendering. -/
def specDefaultTimeFormat (t : GoTime) : String :=
  padNum 4 t.year ++ "-" ++ padNum 2 t.month ++ "-" ++ padNum 2 t.day ++ " " ++
    padNum 2 t.hour ++ ":" ++ padNum 2 t.minute ++ ":" ++ padNum 2 t.second ++
    goFrac t.nanos ++
    (if t.offMinutes < 0 then "-" else "+") ++
    padNum 2 (t.offMinutes.natAbs / 60) ++ ":" ++ padNum 2 (t.offMinutes.natAbs % 60)

/-! ## Parameter binding: (*conn).bind

Translated from (*conn).bind in sqlite.go.  The engine-reported placeholder
names (bindParameterName for indices 1..n, empty for purely positional
placeholders) are an input list; caller arguments are namedValue records.
The Go `for _, v = range args` loop leaves v holding the last visited
element when no break fires, which we reproduce with rangeFind.  Boundary
allocations (bindText / bindBlob buffers) are modelled by a counter that
yields fresh handles; the engine bind calls themselves are modelled as
succeeding.  The deferred cleanup of conn.bind frees every allocation made
so far and returns a nil alloc list whenever the bind fails. -/

inductive DrvValue
  | int64 (v : Int)
  | floatV (bits : Int)
  | boolV (b : Bool)
  | blob (b : List Nat)
  | text (s : String)
  | timeV (t : GoTime)
  | nilV
deriving Repr

structure NamedValue where
  Name : String
  Ordinal : Nat
  Value : DrvValue

def zeroNV : NamedValue := ⟨"", 0, DrvValue.nilV⟩

/-- The per-placeholder match test of the arg-search loop: a named
placeholder compares its engine name with the first character (the
:/@/$ prefix) stripped against the argument name; an unnamed placeholder
compares the 1-based ordinal. -/
def bindMatches (name : String) (i : Nat) (v : NamedValue) : Bool :=
  if name ≠ "" then name.drop 1 = v.Name else v.Ordinal = i

/-- Go range-loop assignment semantics: v is assigned each element in turn
and keeps the last assigned element when no break fires. -/
def rangeFind (p : NamedValue → Bool) : NamedValue → List NamedValue → NamedValue
  | v, [] => v
  | _, a :: rest => if p a then a else rangeFind p a rest

inductive MemEvent
  | alloc (h : Nat)
  | free (h : Nat)
deriving Repr, DecidableEq

/-- The bind loop body over the remaining placeholder names, carrying the
1-based placeholder index, the allocation counter, the allocations made so
far (in order) and the texts handed to bindText so far.  Returns the next
counter value, all allocations made, all bound texts, and the error. -/
def bindLoopRaw (args : List NamedValue) :
    List String → Nat → Nat → List Nat → List String →
    Nat × List Nat × List String × Option String
  | [], _, ctr, al, ts => (ctr, al, ts, none)
  | name :: rest, i, ctr, al, ts =>
    let v := rangeFind (bindMatches name i) zeroNV args
    if v.Ordinal = 0 then
      if name ≠ "" then
        (ctr, al, ts, some (sprintf "missing named argument %q" [quoteArg (name.drop 1)]))
      else
        (ctr, al, ts, some (sprintf "missing argument with %d index" [toString i]))
    else
      match v.Value with
      | DrvValue.int64 _ => bindLoopRaw args rest (i + 1) ctr al ts
      | DrvValue.floatV _ => bindLoopRaw args rest (i + 1) ctr al ts
      | DrvValue.boolV _ => bindLoopRaw args rest (i + 1) ctr al ts
      | DrvValue.blob _ => bindLoopRaw args rest (i + 1) (ctr + 1) (al ++ [ctr]) ts
      | DrvValue.text s => bindLoopRaw args rest (i + 1) (ctr + 1) (al ++ [ctr]) (ts ++ [s])
      | DrvValue.timeV t =>
        bindLoopRaw args rest (i + 1) (ctr + 1) (al ++ [ctr]) (ts ++ [goTimeString t])
      | DrvValue.nilV => (ctr, al, ts, some "sqlite: invalid driver.Value type <nil>")

structure BindOut where
  events : List MemEvent
  next : Nat
  allocs : List Nat
  texts : List String
  err : Option String

/-- The full (*conn).bind call: run the loop; on failure the deferred
cleanup frees every allocation made and the caller receives no
allocations. -/
def connBind (names : List String) (args : List NamedValue) (ctr : Nat) : BindOut :=
  let r := bindLoopRaw args names 1 ctr [] []
  match r.2.2.2 with
  | none => ⟨r.2.1.map MemEvent.alloc, r.1, r.2.1, r.2.2.1, none⟩
  | some e => ⟨r.2.1.map MemEvent.alloc ++ r.2.1.map MemEvent.free, r.1, [], r.2.2.1, some e⟩

/-- Go strings.Contains, by prefix search at every suffix. -/
def listIsPrefix : List Char → List Char → Bool
  | [], _ => true
  | _ :: _, [] => false
  | a :: as2, b :: bs => a = b && listIsPrefix as2 bs

def goContainsAux (sub : List Char) : List Char → Bool
  | [] => listIsPrefix sub []
  | c :: rest => listIsPrefix sub (c :: rest) || goContainsAux sub rest

def goContains (s sub : String) : Bool := goContainsAux sub.data s.data

/-- C4 (code bug): against the modelled (*conn).bind, a named placeholder
`:one` with a single positional argument does not fail at all (the range
loop leaves the last argument in v, whose ordinal is nonzero, so the value
is silently bound), and an unnamed placeholder with no arguments fails
with the message "missing argument with 1 index", which does not contain
the substring "missing argument with index" required by the spec and by
the testBindingError regression test; the named-placeholder message does
contain "missing named argument". -/
theorem bind_missing_argument_bug :
    (connBind [":one"] [⟨"", 1, DrvValue.int64 1⟩] 0).err = none ∧
    (connBind [""] [] 0).err = some "missing argument with 1 index" ∧
    goContains "missing argument with 1 index" "missing argument with index" = false ∧
    (connBind [":one"] [] 0).err = some "missing named argument \"one\"" ∧
    goContains "missing named argument \"one\"" "missing named argument" = true := by
  refine ⟨rfl, ?_, ?_, ?_, ?_⟩ <;> decide

/-- C6 (code bug): the text handed to the engine bind-text call for a
timestamp argument is the Go time.Time.String rendering, which differs
from the default `YYYY-MM-DD HH:MM:SS.nnnnnnnnn+HH:MM` rendering required
by the spec and by the TestTimeFormat regression test, shown at the
reference instant 2021-01-02 16:39:17.123456789 UTC. -/
theorem time_binding_divergence :
    (connBind [""] [⟨"", 1, DrvValue.timeV ⟨2021, 1, 2, 16, 39, 17, 123456789, 0, "UTC"⟩⟩] 0).texts
      = [goTimeString ⟨2021, 1, 2, 16, 39, 17, 123456789, 0, "UTC"⟩] ∧
    goTimeString ⟨2021, 1, 2, 16, 39, 17, 123456789, 0, "UTC"⟩
      = "2021-01-02 16:39:17.123456789 +0000 UTC" ∧
    specDefaultTimeFormat ⟨2021, 1, 2, 16, 39, 17, 123456789, 0, "UTC"⟩
      = "2021-01-02 16:39:17.123456789+00:00" ∧
    goTimeString ⟨2021, 1, 2, 16, 39, 17, 123456789, 0, "UTC"⟩
      ≠ specDefaultTimeFormat ⟨2021, 1, 2, 16, 39, 17, 123456789, 0, "UTC"⟩ := by
  refine ⟨rfl, ?_, ?_, ?_⟩ <;> decide

/-- C10: calling LastInsertId or RowsAffected on a nil result returns 0 and
no error; on a non-nil result they return exactly the counters captured by
newResult at construction, independent of any later connection state. -/
theorem result_accessors (c : ConnCounters) :
    resultLastInsertId none = (0, none) ∧
    resultRowsAffected none = (0, none) ∧
    resultLastInsertId (some (newResult c)) = (c.lastInsertRowID, none) ∧
    resultRowsAffected (some (newResult c)) = (c.changes, none) := by
  exact ⟨rfl, rfl, rfl, rfl⟩

/-! ## Lock retry: (*conn).step, (*conn).retry and (*conn).prepareV2

Translated from sqlite.go.  The engine is an oracle: rcs lists the return
codes of the successive raw engine step (or prepare) attempts, and ns
lists the outcome of each successive unlock-notify registration made by
retry — either the notification callback fires and releases the mutex
(the blocked call resumes and the attempt is retried) or the engine
returns the deadlock code LOCKED, which retry turns into an errstr error
immediately.  Mutex allocation and blocking have no other caller-visible
outcome, so the oracle captures the observable control flow.  A result of
none means the oracle is exhausted: the call is still looping or blocked. -/

def DSQLITE_BUSY : Int := 5
def DSQLITE_LOCKED : Int := 6
def sqliteLockedSharedcache : Int := 6 + 256

inductive NotifyRes
  | notified
  | deadlock
deriving Repr, DecidableEq

def isLockRC (rc : Int) : Bool := rc = sqliteLockedSharedcache || rc = DSQLITE_BUSY

def connStep (estr emsg : String) : List Int → List NotifyRes → Option (Int × Option GoError)
  | [], _ => none
  | rc :: rcs, ns =>
    if isLockRC rc then
      match ns with
      | [] => none
      | NotifyRes.deadlock :: _ =>
        some (DSQLITE_LOCKED, some (errstr estr emsg DSQLITE_LOCKED))
      | NotifyRes.notified :: ns2 => connStep estr emsg rcs ns2
    else some (rc, none)

def connPrepare (estr emsg : String) (pstmt : Nat) :
    List Int → List NotifyRes → Option (Except GoError Nat)
  | [], _ => none
  | rc :: rcs, ns =>
    if rc = 0 then some (Except.ok pstmt)
    else if isLockRC rc then
      match ns with
      | [] => none
      | NotifyRes.deadlock :: _ => some (Except.error (errstr estr emsg DSQLITE_LOCKED))
      | NotifyRes.notified :: ns2 => connPrepare estr emsg pstmt rcs ns2
    else some (Except.error (errstr estr emsg rc))

theorem connStep_error_characterization (estr emsg : String) :
    ∀ (rcs : List Int) (ns : List NotifyRes) (rc : Int) (e : GoError),
      connStep estr emsg rcs ns = some (rc, some e) →
      rc = DSQLITE_LOCKED ∧ e = errstr estr emsg DSQLITE_LOCKED ∧
        NotifyRes.deadlock ∈ ns := by
  intro rcs
  induction rcs with
  | nil => intro ns rc e h; simp [connStep] at h
  | cons rc0 rest ih =>
    intro ns rc e h
    rw [connStep.eq_def] at h; simp only [] at h
    by_cases hl : isLockRC rc0
    · rw [if_pos hl] at h
      match ns with
      | [] => simp at h
      | NotifyRes.deadlock :: ns2 =>
        simp at h
        exact ⟨h.1.symm, h.2.symm, by simp⟩
      | NotifyRes.notified :: ns2 =>
        simp at h
        have := ih ns2 rc e h
        exact ⟨this.1, this.2.1, by simp [this.2.2]⟩
    · rw [if_neg hl] at h
      simp at h

theorem connStep_no_deadlock (estr emsg : String) :
    ∀ (rcs : List Int) (ns : List NotifyRes), NotifyRes.deadlock ∉ ns →
      ∀ out, connStep estr emsg rcs ns = some out →
        out.2 = none ∧ isLockRC out.1 = false ∧
          rcs.find? (fun r => !isLockRC r) = some out.1 := by
  intro rcs
  induction rcs with
  | nil => intro ns hns out h; simp [connStep] at h
  | cons rc0 rest ih =>
    intro ns hns out h
    rw [connStep.eq_def] at h; simp only [] at h
    by_cases hl : isLockRC rc0
    · rw [if_pos hl] at h
      match ns with
      | [] => simp at h
      | NotifyRes.deadlock :: ns2 => simp at hns
      | NotifyRes.notified :: ns2 =>
        simp at h hns
        have := ih ns2 hns out h
        exact ⟨this.1, this.2.1, by rw [List.find?_cons, hl]; simpa using this.2.2⟩
    · rw [if_neg hl] at h
      simp at h
      refine ⟨by simp [← h], by simp [← h]; simpa using hl, ?_⟩
      rw [List.find?_cons]
      simp only [hl]
      simp [← h]

theorem connPrepare_error_characterization (estr emsg : String) (pstmt : Nat) :
    ∀ (rcs : List Int) (ns : List NotifyRes) (e : GoError),
      connPrepare estr emsg pstmt rcs ns = some (Except.error e) →
      (NotifyRes.deadlock ∈ ns ∧ e = errstr estr emsg DSQLITE_LOCKED) ∨
        (∃ rc ∈ rcs, isLockRC rc = false ∧ rc ≠ 0 ∧ e = errstr estr emsg rc) := by
  intro rcs
  induction rcs with
  | nil => intro ns e h; simp [connPrepare] at h
  | cons rc0 rest ih =>
    intro ns e h
    rw [connPrepare.eq_def] at h; simp only [] at h
    by_cases h0 : rc0 = 0
    · rw [if_pos h0] at h; simp at h
    rw [if_neg h0] at h
    by_cases hl : isLockRC rc0
    · rw [if_pos hl] at h
      match ns with
      | [] => simp at h
      | NotifyRes.deadlock :: ns2 =>
        simp at h
        exact Or.inl ⟨by simp, h.symm⟩
      | NotifyRes.notified :: ns2 =>
        rcases ih ns2 e h with ⟨hmem, he⟩ | ⟨rc, hrc, hnl, hnz, he⟩
        · exact Or.inl ⟨by simp [hmem], he⟩
        · exact Or.inr ⟨rc, by simp [hrc], hnl, hnz, he⟩
    · rw [if_neg hl] at h
      simp at h
      exact Or.inr ⟨rc0, by simp, by simpa using hl, h0, h.symm⟩

/-- C5: a step or prepare attempt that observes BUSY or the shared-cache
LOCKED variant is never surfaced to the caller: the driver parks on the
unlock-notify oracle and retries, and (1) a step call returns an error
only when an unlock-notify registration reported the deadlock code, in
which case the returned code is LOCKED and the error is errstr(LOCKED)
with no further retry; (2) when no deadlock is ever reported, a finished
step call returns, without error, exactly the first attempt outcome that
is not a lock condition; (3) a finished prepare call errors only from a
deadlock report (as errstr(LOCKED)) or from a non-lock, non-OK result
code. -/
theorem lock_retry_spec (estr emsg : String) (rcs : List Int) (ns : List NotifyRes)
    (pstmt : Nat) :
    (∀ rc e, connStep estr emsg rcs ns = some (rc, some e) →
      rc = DSQLITE_LOCKED ∧ e = errstr estr emsg DSQLITE_LOCKED ∧
        NotifyRes.deadlock ∈ ns) ∧
    (NotifyRes.deadlock ∉ ns →
      ∀ out, connStep estr emsg rcs ns = some out →
        out.2 = none ∧ isLockRC out.1 = false ∧
          rcs.find? (fun r => !isLockRC r) = some out.1) ∧
    (∀ e, connPrepare estr emsg pstmt rcs ns = some (Except.error e) →
      (NotifyRes.deadlock ∈ ns ∧ e = errstr estr emsg DSQLITE_LOCKED) ∨
        (∃ rc ∈ rcs, isLockRC rc = false ∧ rc ≠ 0 ∧ e = errstr estr emsg rc)) :=
  ⟨fun rc e h => connStep_error_characterization estr emsg rcs ns rc e h,
   fun hns out h => connStep_no_deadlock estr emsg rcs ns hns out h,
   fun e h => connPrepare_error_characterization estr emsg pstmt rcs ns e h⟩

/-- Witness: a BUSY then shared-cache-LOCKED then ROW step trace with two
successful notifications finishes as ROW with no error. -/
theorem lock_retry_spec_witness :
    connStep "x" "y" [5, 262, 100] [NotifyRes.notified, NotifyRes.notified]
        = some (100, none) ∧
    (NotifyRes.deadlock ∉ [NotifyRes.notified, NotifyRes.notified]) ∧
    ((100 : Int), (none : Option GoError)).2 = none ∧ isLockRC 100 = false ∧
    ([5, 262, 100] : List Int).find? (fun r => !isLockRC r) = some 100 := by
  have h := (lock_retry_spec "x" "y" [5, 262, 100]
      [NotifyRes.notified, NotifyRes.notified] 7).2.1 (by decide) (100, none) (by decide)
  exact ⟨by decide, by decide, h.1, h.2.1, h.2.2⟩

/-! ## Row cursors: (*rows).Next

Translated from (*rows).Next in sqlite.go.  The engine statement behind a
cursor is modelled by the row it most recently produced (cur) and the rows
it will still produce (pending); a step moves the next pending row into
cur and reports ROW, or reports DONE at the end.  Column accessors read
the current row; the float payload type is an opaque parameter since the
driver moves float column values verbatim without computing on them.  The
getter defaults for a mismatched tag are never exercised because Next
reads each column with the getter selected by that column's tag. -/

inductive Col (φ : Type)
  | integer (v : Int)
  | float (v : φ)
  | text (s : String)
  | blob (b : List Nat)
  | null

def columnType {φ : Type} : Col φ → Int
  | Col.integer _ => 1
  | Col.float _ => 2
  | Col.text _ => 3
  | Col.blob _ => 4
  | Col.null => 5

def columnInt64 {φ : Type} : Col φ → Int
  | Col.integer v => v
  | _ => 0

def columnDouble {φ : Type} [Inhabited φ] : Col φ → φ
  | Col.float v => v
  | _ => default

def columnText2 {φ : Type} : Col φ → String
  | Col.text s => s
  | _ => ""

def columnBlob2 {φ : Type} : Col φ → List Nat
  | Col.blob b => b
  | _ => []

inductive DestVal (φ : Type)
  | int (v : Int)
  | float (v : φ)
  | text (s : String)
  | blob (b : List Nat)
  | null

/-- The per-column body of the decode loop of Next: dispatch on the
dynamic column type tag and read with the matching getter; the tag 5 case
writes the absent value (the default branch of the source is unreachable
since tags are always 1..5). -/
def decodeCol {φ : Type} [Inhabited φ] (c : Col φ) : DestVal φ :=
  if columnType c = 1 then DestVal.int (columnInt64 c)
  else if columnType c = 2 then DestVal.float (columnDouble c)
  else if columnType c = 3 then DestVal.text (columnText2 c)
  else if columnType c = 4 then DestVal.blob (columnBlob2 c)
  else DestVal.null

structure RowsState (φ : Type) where
  cur : Option (List (Col φ))
  pending : List (List (Col φ))
  ncols : Nat
  rc0 : Int
  doStep : Bool

def rowsStep {φ : Type} (r : RowsState φ) : Int × RowsState φ :=
  match r.pending with
  | x :: xs => (100, { r with cur := some x, pending := xs })
  | [] => (101, { r with cur := none })

inductive NextRes (φ : Type)
  | ok (vals : List (DestVal φ))
  | eof
  | mismatch (g e : Nat)
  | err (e : GoError)

def rowsNext {φ : Type} [Inhabited φ] (estr emsg : String) (destLen : Nat)
    (r : RowsState φ) : NextRes φ × RowsState φ :=
  let s := if r.doStep then rowsStep r else (r.rc0, r)
  let rc := s.1
  let r2 := { s.2 with doStep := true }
  if rc = 100 then
    if destLen ≠ r2.ncols then (NextRes.mismatch destLen r2.ncols, r2)
    else
      let row := r2.cur.getD []
      (NextRes.ok ((List.range destLen).map fun i => decodeCol (row.getD i Col.null)), r2)
  else if rc = 101 then (NextRes.eof, r2)
  else (NextRes.err (errstr estr emsg rc), r2)

theorem range_map_getD {α β : Type} (row : List α) (d : α) (f : α → β) :
    (List.range row.length).map (fun i => f (row.getD i d)) = row.map f := by
  induction row with
  | nil => rfl
  | cons a t ih =>
    rw [List.length_cons, List.range_succ_eq_map, List.map_cons, List.map_map]
    have h2 : ((fun i => f ((a :: t).getD i d)) ∘ Nat.succ) = (fun i => f (t.getD i d)) := by
      funext i
      rfl
    rw [h2, ih]
    rfl

/-- C3: the first Next call on an open cursor consumes the row already
produced by the step that created the cursor (the engine is not stepped:
pending rows are untouched); every later call steps the statement once;
a ROW outcome fills destination slot i from column i by the dynamic type
tag (INTEGER as the 64-bit integer, FLOAT as the float payload, TEXT as
the string, BLOB as the byte list, NULL as the absent value); and a DONE
outcome yields the end-of-stream sentinel, not a generic error. -/
theorem rows_next_spec (φ : Type) [Inhabited φ] (estr emsg : String)
    (r : RowsState φ) (destLen : Nat) (row x : List (Col φ))
    (xs : List (List (Col φ))) (v : Int) (f : φ) (s : String) (b : List Nat) :
    (r.doStep = false → r.rc0 = 100 → r.cur = some row → destLen = r.ncols →
      row.length = destLen →
      rowsNext estr emsg destLen r
        = (NextRes.ok (row.map decodeCol), { r with doStep := true })) ∧
    (r.doStep = true → r.pending = x :: xs → destLen = r.ncols →
      x.length = destLen →
      rowsNext estr emsg destLen r
        = (NextRes.ok (x.map decodeCol),
           { r with cur := some x, pending := xs, doStep := true })) ∧
    (r.doStep = true → r.pending = [] →
      rowsNext estr emsg destLen r
        = (NextRes.eof, { r with cur := none, doStep := true }) ∧
      (∀ e, (NextRes.eof : NextRes φ) ≠ NextRes.err e)) ∧
    (decodeCol (Col.integer (φ := φ) v) = DestVal.int v ∧
     decodeCol (Col.float f) = DestVal.float f ∧
     decodeCol (Col.text (φ := φ) s) = DestVal.text s ∧
     decodeCol (Col.blob (φ := φ) b) = DestVal.blob b ∧
     decodeCol (Col.null (φ := φ)) = DestVal.null) := by
  refine ⟨?_, ?_, ?_, ?_⟩
  · intro hds hrc hcur hlen hrow
    subst hlen
    have hmap : (List.range r.ncols).map (fun i => decodeCol (row[i]?.getD (Col.null (φ := φ))))
        = row.map decodeCol := by
      rw [← hrow]
      simpa [List.getD] using range_map_getD row (Col.null (φ := φ)) decodeCol
    rw [rowsNext]
    simp [hds, hrc, hcur, hmap]
  · intro hds hpend hlen hrow
    subst hlen
    have hmap : (List.range r.ncols).map (fun i => decodeCol (x[i]?.getD (Col.null (φ := φ))))
        = x.map decodeCol := by
      rw [← hrow]
      simpa [List.getD] using range_map_getD x (Col.null (φ := φ)) decodeCol
    rw [rowsNext]
    simp [hds, rowsStep, hpend, hmap]
  · intro hds hpend
    refine ⟨?_, fun e => by simp⟩
    rw [rowsNext]
    simp [hds, rowsStep, hpend]
  · refine ⟨rfl, rfl, rfl, rfl, rfl⟩

/-- Witness: a two-column cursor (an integer and a text column) holding
one pending initial row, exercised through the theorem: the first call
decodes the already-produced row, the second reports end of stream. -/
theorem rows_next_spec_witness :
    rowsNext (φ := Int) "x" "y" 2
        ⟨some [Col.integer 7, Col.text "a"], [], 2, 100, false⟩
      = (NextRes.ok [DestVal.int 7, DestVal.text "a"],
         ⟨some [Col.integer 7, Col.text "a"], [], 2, 100, true⟩) ∧
    rowsNext (φ := Int) "x" "y" 2
        ⟨some [Col.integer 7, Col.text "a"], [], 2, 100, true⟩
      = (NextRes.eof, ⟨none, [], 2, 100, true⟩) := by
  constructor
  · have h := (rows_next_spec Int "x" "y"
      ⟨some [Col.integer 7, Col.text "a"], [], 2, 100, false⟩ 2
      [Col.integer 7, Col.text "a"] [] [] 0 0 "" []).1
      rfl rfl rfl rfl rfl
    rw [h]; rfl
  · have h := ((rows_next_spec Int "x" "y"
      ⟨some [Col.integer 7, Col.text "a"], [], 2, 100, true⟩ 2
      [Col.integer 7, Col.text "a"] [] [] 0 0 "" []).2.2.1
      rfl rfl).1
    rw [h]

/-! ## Stmt.Query sub-statement iteration: (*stmt).query

Translated from the (*stmt).query variant at the end of sqlite.go (the
rowStmt / rc0 loop).  Each `;`-separated sub-statement is described by
the engine handle its prepare produced (none for an empty statement), the
column names of the prepared statement, and the result code of its
initiating step.  The loop adopts the first ROW-yielding statement in
rowStmt, errors on a second one (finalizing it), records DONE in rc0
while nothing is adopted, and finally builds the cursor; newRows over a
nil adopted statement reads a zero column count from the engine
(sqlite3_column_count of a null statement is 0). -/

structure SubB where
  pstmt : Option Nat
  cols : List String
  rc : Int
deriving Repr, DecidableEq

structure RowsB where
  pstmt : Option Nat
  columns : List String
  rc0 : Int
  doStep : Bool
deriving Repr, DecidableEq

def newRowsB (rowStmt : Option (Nat × List String)) (rc0 : Int) : RowsB :=
  { pstmt := rowStmt.map Prod.fst,
    columns := match rowStmt with
      | some p => p.2
      | none => [],
    rc0 := rc0,
    doStep := false }

def queryBLoop (estr emsg : String) :
    List SubB → Option (Nat × List String) → Int → List Nat →
    Except String (Option (Nat × List String) × Int) × List Nat
  | [], rowStmt, rc0, fin => (Except.ok (rowStmt, rc0), fin)
  | sub :: rest, rowStmt, rc0, fin =>
    match sub.pstmt with
    | none => queryBLoop estr emsg rest rowStmt rc0 fin
    | some h =>
      if sub.rc = 100 then
        match rowStmt with
        | some _ => (Except.error "query contains multiple select statements", fin ++ [h])
        | none => queryBLoop estr emsg rest (some (h, sub.cols)) 100 fin
      else if sub.rc = 101 then
        queryBLoop estr emsg rest rowStmt (if rowStmt.isNone then 101 else rc0) fin
      else (Except.error (errstr estr emsg sub.rc).msg, fin ++ [h])

def queryB (estr emsg : String) (subs : List SubB) : Except String RowsB × List Nat :=
  match queryBLoop estr emsg subs none 0 [] with
  | (Except.ok p, fin) => (Except.ok (newRowsB p.1 p.2), fin)
  | (Except.error e, fin) => (Except.error e, fin)

theorem queryBLoop_adopted_skips (estr emsg : String) :
    ∀ (pre rest : List SubB) (x : Nat × List String) (rc0 : Int) (fin : List Nat),
      (∀ s ∈ pre, ∀ h, s.pstmt = some h → s.rc = 101) →
      queryBLoop estr emsg (pre ++ rest) (some x) rc0 fin
        = queryBLoop estr emsg rest (some x) rc0 fin := by
  intro pre
  induction pre with
  | nil => intro rest x rc0 fin _; rfl
  | cons s pre2 ih =>
    intro rest x rc0 fin hpre
    rw [List.cons_append, queryBLoop]
    match hs : s.pstmt with
    | none =>
      exact ih rest x rc0 fin (fun t ht h hth => hpre t (by simp [ht]) h hth)
    | some h =>
      have hrc : s.rc = 101 := hpre s (by simp) h hs
      rw [hrc]
      norm_num
      exact ih rest x rc0 fin (fun t ht h2 hth => hpre t (by simp [ht]) h2 hth)

theorem queryBLoop_unadopted_skips (estr emsg : String) :
    ∀ (pre rest : List SubB) (rc0 : Int) (fin : List Nat),
      (∀ s ∈ pre, ∀ h, s.pstmt = some h → s.rc = 101) →
      queryBLoop estr emsg (pre ++ rest) none rc0 fin
        = queryBLoop estr emsg rest none
            (if pre.any (fun s => s.pstmt.isSome) then 101 else rc0) fin := by
  intro pre
  induction pre with
  | nil => intro rest rc0 fin _; simp
  | cons s pre2 ih =>
    intro rest rc0 fin hpre
    rw [List.cons_append, queryBLoop]
    match hs : s.pstmt with
    | none =>
      rw [ih rest rc0 fin (fun t ht h hth => hpre t (by simp [ht]) h hth)]
      simp [List.any_cons, hs]
    | some h =>
      have hrc : s.rc = 101 := hpre s (by simp) h hs
      rw [hrc]
      norm_num
      rw [ih rest 101 fin (fun t ht h2 hth => hpre t (by simp [ht]) h2 hth)]
      simp [List.any_cons, hs]

/-- C2 (amended): in Stmt.Query over the `;`-separated sub-statements,
(1) when every prepared sub-statement steps to DONE and at least one
sub-statement actually prepares to an engine statement, the call returns
a cursor in the DONE terminal state with no adopted statement and zero
columns; (2) the first sub-statement whose initiating step yields ROW is
adopted as the returned cursor, with its handle and columns; (3) a second
ROW-yielding sub-statement makes the call fail with the error "query
contains multiple select statements" and that extra engine statement is
finalized.  (For a text whose sub-statements are all empty the cursor is
returned with initial code 0 instead of DONE; see the counterexample.) -/
theorem stmt_query_substatements (estr emsg : String) (subs : List SubB) :
    ((∀ s ∈ subs, ∀ h, s.pstmt = some h → s.rc = 101) →
     (∃ s ∈ subs, s.pstmt.isSome) →
      queryB estr emsg subs = (Except.ok ⟨none, [], 101, false⟩, [])) ∧
    (∀ (pre : List SubB) (h : Nat) (cols : List String) (post : List SubB),
      subs = pre ++ ⟨some h, cols, 100⟩ :: post →
      (∀ s ∈ pre, ∀ h2, s.pstmt = some h2 → s.rc = 101) →
      (∀ s ∈ post, ∀ h2, s.pstmt = some h2 → s.rc = 101) →
      queryB estr emsg subs = (Except.ok ⟨some h, cols, 100, false⟩, [])) ∧
    (∀ (pre : List SubB) (h : Nat) (cols : List String) (mid : List SubB)
        (h2 : Nat) (cols2 : List String) (rest2 : List SubB),
      subs = pre ++ ⟨some h, cols, 100⟩ :: mid ++ ⟨some h2, cols2, 100⟩ :: rest2 →
      (∀ s ∈ pre, ∀ h3, s.pstmt = some h3 → s.rc = 101) →
      (∀ s ∈ mid, ∀ h3, s.pstmt = some h3 → s.rc = 101) →
      queryB estr emsg subs
        = (Except.error "query contains multiple select statements", [h2])) := by
  refine ⟨?_, ?_, ?_⟩
  · intro hall hex
    have hb := queryBLoop_unadopted_skips estr emsg subs [] 0 [] hall
    rw [List.append_nil] at hb
    have hany : subs.any (fun s => s.pstmt.isSome) = true := by
      rcases hex with ⟨s, hs, hsome⟩
      exact List.any_eq_true.mpr ⟨s, hs, hsome⟩
    rw [hany] at hb
    rw [queryB, hb]
    rfl
  · intro pre h cols post hsubs hpre hpost
    subst hsubs
    have hu := queryBLoop_unadopted_skips estr emsg pre (⟨some h, cols, 100⟩ :: post) 0 [] hpre
    rw [queryB, hu, queryBLoop]
    norm_num
    have ha := queryBLoop_adopted_skips estr emsg post [] (h, cols) 100 [] hpost
    rw [List.append_nil] at ha
    rw [ha]
    rfl
  · intro pre h cols mid h2 cols2 rest2 hsubs hpre hmid
    subst hsubs
    have hu := queryBLoop_unadopted_skips estr emsg pre
        (⟨some h, cols, 100⟩ :: (mid ++ ⟨some h2, cols2, 100⟩ :: rest2)) 0 [] hpre
    rw [queryB, List.append_assoc, List.cons_append, hu, queryBLoop]
    norm_num
    have ha := queryBLoop_adopted_skips estr emsg mid (⟨some h2, cols2, 100⟩ :: rest2)
        (h, cols) 100 [] hmid
    rw [ha]
    rfl

/-- Witness: a single SELECT-shaped sub-statement (handle 3, one column)
is adopted as the cursor, through the theorem. -/
theorem stmt_query_substatements_witness :
    queryB "x" "y" [⟨some 3, ["a"], 100⟩]
      = (Except.ok ⟨some 3, ["a"], 100, false⟩, []) := by
  exact (stmt_query_substatements "x" "y" [⟨some 3, ["a"], 100⟩]).2.1
    [] 3 ["a"] [] rfl (by simp) (by simp)

/-- C2 counterexample: for a text whose sub-statements are all empty (for
example the SQL text ";"), Query returns a cursor whose initial result
code is the zero value 0, not DONE (101), and the first Next call on such
a cursor returns a generic errstr error rather than the end-of-stream
sentinel — against the claim that the cursor is in the DONE terminal
state. -/
theorem stmt_query_counterexample :
    queryB "e" "m" [⟨none, [], 0⟩] = (Except.ok ⟨none, [], 0, false⟩, []) ∧
    (RowsB.mk none [] 0 false).rc0 ≠ 101 ∧
    (rowsNext (φ := Int) "e" "m" 0 ⟨none, [], 0, 0, false⟩).1
      = NextRes.err (errstr "e" "m" 0) := by
  refine ⟨rfl, by decide, rfl⟩

/-! ## Allocation lifecycle of Exec and Query: (*stmt).exec, (*stmt).query,
(*rows).Close

Translated from the first (*stmt).exec / (*stmt).query / (*rows).Close
variant of sqlite.go (the one whose conn.bind returns an alloc list and
whose rows.Close frees it).  Boundary allocations are fresh handles drawn
from a counter; every allocation and every free is recorded as an event.
Per sub-statement, prepareV2 mallocs the two output pointer cells and
frees both through its deferred cleanup on every path; a sub-statement
whose text is empty prepares to a nil statement and is skipped; bind runs
as in connBind (a parameterless statement runs it with an empty name list,
which performs no allocation, matching the skipped call of the source);
exec frees the bind allocations of a sub-statement through the deferred
cleanup on every exit of its inner closure, while query accumulates them
across sub-statements and hands the accumulated list to the adopted rows
cursor; rows.Close frees that list.  Engine step outcomes are oracles in
the sub-statement description. -/

structure SubA where
  nilStmt : Bool
  handle : Nat
  names : List String
  stepRC : Int

def prepEvents (ctr : Nat) : List MemEvent :=
  (List.range' ctr 2).map MemEvent.alloc ++ (List.range' ctr 2).map MemEvent.free

def execA (estr emsg : String) (args : List NamedValue) :
    List SubA → Nat → List MemEvent × Nat × Option String
  | [], ctr => ([], ctr, none)
  | sub :: rest, ctr =>
    if sub.nilStmt then
      (prepEvents ctr ++ (execA estr emsg args rest (ctr + 2)).1,
       (execA estr emsg args rest (ctr + 2)).2.1,
       (execA estr emsg args rest (ctr + 2)).2.2)
    else
      match (connBind sub.names args (ctr + 2)).err with
      | some e =>
        (prepEvents ctr ++ (connBind sub.names args (ctr + 2)).events,
         (connBind sub.names args (ctr + 2)).next, some e)
      | none =>
        if sub.stepRC % 256 = 100 ∨ sub.stepRC % 256 = 101 then
          (prepEvents ctr ++ (connBind sub.names args (ctr + 2)).events
             ++ (connBind sub.names args (ctr + 2)).allocs.map MemEvent.free
             ++ (execA estr emsg args rest (connBind sub.names args (ctr + 2)).next).1,
           (execA estr emsg args rest (connBind sub.names args (ctr + 2)).next).2.1,
           (execA estr emsg args rest (connBind sub.names args (ctr + 2)).next).2.2)
        else
          (prepEvents ctr ++ (connBind sub.names args (ctr + 2)).events
             ++ (connBind sub.names args (ctr + 2)).allocs.map MemEvent.free,
           (connBind sub.names args (ctr + 2)).next,
           some (errstr estr emsg sub.stepRC).msg)

structure RowsA where
  pstmt : Nat
  allocs : List Nat
deriving Repr, DecidableEq

inductive QOutA
  | ok (r : RowsA)
  | err (e : String)
  | panicTODO
deriving Repr, DecidableEq

def queryALoop (estr emsg : String) (args : List NamedValue) :
    List SubA → Nat → List Nat → Option RowsA → List MemEvent × Nat × QOutA
  | [], ctr, _, r =>
    ([], ctr, match r with
      | some rv => QOutA.ok rv
      | none => QOutA.panicTODO)
  | sub :: rest, ctr, allocs, r =>
    if sub.nilStmt then
      (prepEvents ctr ++ (queryALoop estr emsg args rest (ctr + 2) allocs r).1,
       (queryALoop estr emsg args rest (ctr + 2) allocs r).2.1,
       (queryALoop estr emsg args rest (ctr + 2) allocs r).2.2)
    else
      match (connBind sub.names args (ctr + 2)).err with
      | some e =>
        (prepEvents ctr ++ (connBind sub.names args (ctr + 2)).events,
         (connBind sub.names args (ctr + 2)).next, QOutA.err e)
      | none =>
        if sub.stepRC % 256 = 100 then
          (prepEvents ctr ++ (connBind sub.names args (ctr + 2)).events
             ++ (queryALoop estr emsg args rest (connBind sub.names args (ctr + 2)).next
                  (allocs ++ (connBind sub.names args (ctr + 2)).allocs)
                  (some ⟨sub.handle, allocs ++ (connBind sub.names args (ctr + 2)).allocs⟩)).1,
           (queryALoop estr emsg args rest (connBind sub.names args (ctr + 2)).next
                  (allocs ++ (connBind sub.names args (ctr + 2)).allocs)
                  (some ⟨sub.handle, allocs ++ (connBind sub.names args (ctr + 2)).allocs⟩)).2.1,
           (queryALoop estr emsg args rest (connBind sub.names args (ctr + 2)).next
                  (allocs ++ (connBind sub.names args (ctr + 2)).allocs)
                  (some ⟨sub.handle, allocs ++ (connBind sub.names args (ctr + 2)).allocs⟩)).2.2)
        else if sub.stepRC % 256 = 101 then
          (prepEvents ctr ++ (connBind sub.names args (ctr + 2)).events
             ++ (queryALoop estr emsg args rest (connBind sub.names args (ctr + 2)).next
                  (allocs ++ (connBind sub.names args (ctr + 2)).allocs) r).1,
           (queryALoop estr emsg args rest (connBind sub.names args (ctr + 2)).next
                  (allocs ++ (connBind sub.names args (ctr + 2)).allocs) r).2.1,
           (queryALoop estr emsg args rest (connBind sub.names args (ctr + 2)).next
                  (allocs ++ (connBind sub.names args (ctr + 2)).allocs) r).2.2)
        else
          (prepEvents ctr ++ (connBind sub.names args (ctr + 2)).events,
           (connBind sub.names args (ctr + 2)).next,
           QOutA.err (errstr estr emsg sub.stepRC).msg)

def queryA (estr emsg : String) (args : List NamedValue) (subs : List SubA) :
    List MemEvent × Nat × QOutA :=
  queryALoop estr emsg args subs 0 [] none

def closeRowsA (r : RowsA) : List MemEvent := r.allocs.map MemEvent.free

def countA (ev : List MemEvent) (h : Nat) : Nat := ev.count (MemEvent.alloc h)

def countF (ev : List MemEvent) (h : Nat) : Nat := ev.count (MemEvent.free h)

theorem countA_append (a b : List MemEvent) (h : Nat) :
    countA (a ++ b) h = countA a h + countA b h := List.count_append _ _ _

theorem countF_append (a b : List MemEvent) (h : Nat) :
    countF (a ++ b) h = countF a h + countF b h := List.count_append _ _ _

theorem countA_allocMap (l : List Nat) (h : Nat) :
    countA (l.map MemEvent.alloc) h = l.count h := by
  induction l with
  | nil => rfl
  | cons a t ih =>
    simp only [List.map_cons, countA, List.count_cons] at *
    rw [ih]
    simp [MemEvent.alloc.injEq]

theorem countF_allocMap (l : List Nat) (h : Nat) :
    countF (l.map MemEvent.alloc) h = 0 := by
  induction l with
  | nil => rfl
  | cons a t ih =>
    simp only [List.map_cons, countF, List.count_cons] at *
    simp [ih]

theorem countA_freeMap (l : List Nat) (h : Nat) :
    countA (l.map MemEvent.free) h = 0 := by
  induction l with
  | nil => rfl
  | cons a t ih =>
    simp only [List.map_cons, countA, List.count_cons] at *
    simp [ih]

theorem countF_freeMap (l : List Nat) (h : Nat) :
    countF (l.map MemEvent.free) h = l.count h := by
  induction l with
  | nil => rfl
  | cons a t ih =>
    simp only [List.map_cons, countF, List.count_cons] at *
    rw [ih]
    simp [MemEvent.free.injEq]

theorem count_range' (s k h : Nat) :
    (List.range' s k).count h = if s ≤ h ∧ h < s + k then 1 else 0 := by
  induction k generalizing s with
  | zero =>
    rw [if_neg (by omega)]
    rfl
  | succ k ih =>
    rw [List.range'_succ, List.count_cons, ih (s + 1)]
    simp only [beq_iff_eq]
    split_ifs <;> omega

theorem bindLoopRaw_allocs (args : List NamedValue) :
    ∀ (names : List String) (i ctr : Nat) (al : List Nat) (ts : List String),
      ∃ k, (bindLoopRaw args names i ctr al ts).1 = ctr + k ∧
        (bindLoopRaw args names i ctr al ts).2.1 = al ++ List.range' ctr k := by
  intro names
  induction names with
  | nil =>
    intro i ctr al ts
    exact ⟨0, rfl, by simp [bindLoopRaw]⟩
  | cons name rest ih =>
    intro i ctr al ts
    by_cases h0 : (rangeFind (bindMatches name i) zeroNV args).Ordinal = 0
    · by_cases hn : name ≠ ""
      · have hb : bindLoopRaw args (name :: rest) i ctr al ts
            = (ctr, al, ts,
               some (sprintf "missing named argument %q" [quoteArg (name.drop 1)])) := by
          rw [bindLoopRaw, if_pos h0, if_pos hn]
        exact ⟨0, by simp [hb], by simp [hb]⟩
      · have hb : bindLoopRaw args (name :: rest) i ctr al ts
            = (ctr, al, ts,
               some (sprintf "missing argument with %d index" [toString i])) := by
          rw [bindLoopRaw, if_pos h0, if_neg hn]
        exact ⟨0, by simp [hb], by simp [hb]⟩
    · cases hv : (rangeFind (bindMatches name i) zeroNV args).Value with
      | int64 v =>
        have hb : bindLoopRaw args (name :: rest) i ctr al ts
            = bindLoopRaw args rest (i + 1) ctr al ts := by
          rw [bindLoopRaw, if_neg h0, hv]
        rcases ih (i + 1) ctr al ts with ⟨k, hk1, hk2⟩
        exact ⟨k, by rw [hb, hk1], by rw [hb, hk2]⟩
      | floatV v =>
        have hb : bindLoopRaw args (name :: rest) i ctr al ts
            = bindLoopRaw args rest (i + 1) ctr al ts := by
          rw [bindLoopRaw, if_neg h0, hv]
        rcases ih (i + 1) ctr al ts with ⟨k, hk1, hk2⟩
        exact ⟨k, by rw [hb, hk1], by rw [hb, hk2]⟩
      | boolV v =>
        have hb : bindLoopRaw args (name :: rest) i ctr al ts
            = bindLoopRaw args rest (i + 1) ctr al ts := by
          rw [bindLoopRaw, if_neg h0, hv]
        rcases ih (i + 1) ctr al ts with ⟨k, hk1, hk2⟩
        exact ⟨k, by rw [hb, hk1], by rw [hb, hk2]⟩
      | blob v =>
        have hb : bindLoopRaw args (name :: rest) i ctr al ts
            = bindLoopRaw args rest (i + 1) (ctr + 1) (al ++ [ctr]) ts := by
          rw [bindLoopRaw, if_neg h0, hv]
        rcases ih (i + 1) (ctr + 1) (al ++ [ctr]) ts with ⟨k, hk1, hk2⟩
        refine ⟨k + 1, by rw [hb, hk1]; omega, ?_⟩
        rw [hb, hk2, List.range'_succ]
        simp
      | text v =>
        have hb : bindLoopRaw args (name :: rest) i ctr al ts
            = bindLoopRaw args rest (i + 1) (ctr + 1) (al ++ [ctr]) (ts ++ [v]) := by
          rw [bindLoopRaw, if_neg h0, hv]
        rcases ih (i + 1) (ctr + 1) (al ++ [ctr]) (ts ++ [v]) with ⟨k, hk1, hk2⟩
        refine ⟨k + 1, by rw [hb, hk1]; omega, ?_⟩
        rw [hb, hk2, List.range'_succ]
        simp
      | timeV v =>
        have hb : bindLoopRaw args (name :: rest) i ctr al ts
            = bindLoopRaw args rest (i + 1) (ctr + 1) (al ++ [ctr])
                (ts ++ [goTimeString v]) := by
          rw [bindLoopRaw, if_neg h0, hv]
        rcases ih (i + 1) (ctr + 1) (al ++ [ctr]) (ts ++ [goTimeString v]) with ⟨k, hk1, hk2⟩
        refine ⟨k + 1, by rw [hb, hk1]; omega, ?_⟩
        rw [hb, hk2, List.range'_succ]
        simp
      | nilV =>
        have hb : bindLoopRaw args (name :: rest) i ctr al ts
            = (ctr, al, ts, some "sqlite: invalid driver.Value type <nil>") := by
          rw [bindLoopRaw, if_neg h0, hv]
        exact ⟨0, by simp [hb], by simp [hb]⟩

theorem connBind_shape (names : List String) (args : List NamedValue) (ctr : Nat) :
    ∃ k, (connBind names args ctr).next = ctr + k ∧
      ((connBind names args ctr).err = none →
        (connBind names args ctr).allocs = List.range' ctr k ∧
        (connBind names args ctr).events = (List.range' ctr k).map MemEvent.alloc) ∧
      ((connBind names args ctr).err ≠ none →
        (connBind names args ctr).allocs = [] ∧
        (connBind names args ctr).events
          = (List.range' ctr k).map MemEvent.alloc
            ++ (List.range' ctr k).map MemEvent.free) := by
  rcases bindLoopRaw_allocs args names 1 ctr [] [] with ⟨k, hk1, hk2⟩
  refine ⟨k, ?_, ?_, ?_⟩ <;>
    rw [connBind] <;>
    rcases he : (bindLoopRaw args names 1 ctr [] []).2.2.2 with _ | e <;>
      simp [he, hk1, hk2]

theorem countA_prep (ctr h : Nat) :
    countA (prepEvents ctr) h = if ctr ≤ h ∧ h < ctr + 2 then 1 else 0 := by
  rw [prepEvents, countA_append, countA_allocMap, countA_freeMap, count_range',
    Nat.add_zero]

theorem countF_prep (ctr h : Nat) :
    countF (prepEvents ctr) h = if ctr ≤ h ∧ h < ctr + 2 then 1 else 0 := by
  rw [prepEvents, countF_append, countF_allocMap, countF_freeMap, count_range',
    Nat.zero_add]

theorem execA_inv (estr emsg : String) (args : List NamedValue) :
    ∀ (subs : List SubA) (ctr : Nat),
      ctr ≤ (execA estr emsg args subs ctr).2.1 ∧
      ∀ h, countA (execA estr emsg args subs ctr).1 h
              = countF (execA estr emsg args subs ctr).1 h ∧
        countA (execA estr emsg args subs ctr).1 h
          ≤ if ctr ≤ h ∧ h < (execA estr emsg args subs ctr).2.1 then 1 else 0 := by
  intro subs
  induction subs with
  | nil =>
    intro ctr
    refine ⟨Nat.le_refl _, fun h => ⟨rfl, ?_⟩⟩
    have hz : countA (execA estr emsg args [] ctr).1 h = 0 := rfl
    rw [hz]
    exact Nat.zero_le _
  | cons sub rest ih =>
    intro ctr
    by_cases hnil : sub.nilStmt = true
    · have he : execA estr emsg args (sub :: rest) ctr
          = (prepEvents ctr ++ (execA estr emsg args rest (ctr + 2)).1,
             (execA estr emsg args rest (ctr + 2)).2.1,
             (execA estr emsg args rest (ctr + 2)).2.2) := by
        rw [execA, if_pos hnil]
      obtain ⟨hnext, hall⟩ := ih (ctr + 2)
      rw [he]
      dsimp only
      refine ⟨by omega, fun h => ?_⟩
      obtain ⟨hbal, hle⟩ := hall h
      constructor
      · rw [countA_append, countF_append, countA_prep, countF_prep, hbal]
      · rw [countA_append, countA_prep]
        split_ifs at hle ⊢ <;> omega
    · rcases connBind_shape sub.names args (ctr + 2) with ⟨k, hknext, hsucc, hfail⟩
      rcases hb : (connBind sub.names args (ctr + 2)).err with _ | e
      · obtain ⟨hal, hev⟩ := hsucc hb
        have he0 : execA estr emsg args (sub :: rest) ctr
            = if sub.stepRC % 256 = 100 ∨ sub.stepRC % 256 = 101 then
                (prepEvents ctr ++ (connBind sub.names args (ctr + 2)).events
                   ++ (connBind sub.names args (ctr + 2)).allocs.map MemEvent.free
                   ++ (execA estr emsg args rest (ctr + 2 + k)).1,
                 (execA estr emsg args rest (ctr + 2 + k)).2.1,
                 (execA estr emsg args rest (ctr + 2 + k)).2.2)
              else
                (prepEvents ctr ++ (connBind sub.names args (ctr + 2)).events
                   ++ (connBind sub.names args (ctr + 2)).allocs.map MemEvent.free,
                 ctr + 2 + k,
                 some (errstr estr emsg sub.stepRC).msg) := by
          rw [execA, if_neg hnil, hb, hknext]
        by_cases hstep : sub.stepRC % 256 = 100 ∨ sub.stepRC % 256 = 101
        · rw [if_pos hstep] at he0
          obtain ⟨hnext, hall⟩ := ih (ctr + 2 + k)
          rw [he0]
          dsimp only
          refine ⟨by omega, fun h => ?_⟩
          obtain ⟨hbal, hle⟩ := hall h
          have hca : countA (prepEvents ctr ++ (connBind sub.names args (ctr + 2)).events
              ++ (connBind sub.names args (ctr + 2)).allocs.map MemEvent.free
              ++ (execA estr emsg args rest (ctr + 2 + k)).1) h
              = (if ctr ≤ h ∧ h < ctr + 2 then 1 else 0)
                + (if ctr + 2 ≤ h ∧ h < ctr + 2 + k then 1 else 0)
                + countA (execA estr emsg args rest (ctr + 2 + k)).1 h := by
            rw [countA_append, countA_append, countA_append, countA_prep, hev, hal,
              countA_allocMap, count_range', countA_freeMap]
            omega
          have hcf : countF (prepEvents ctr ++ (connBind sub.names args (ctr + 2)).events
              ++ (connBind sub.names args (ctr + 2)).allocs.map MemEvent.free
              ++ (execA estr emsg args rest (ctr + 2 + k)).1) h
              = (if ctr ≤ h ∧ h < ctr + 2 then 1 else 0)
                + (if ctr + 2 ≤ h ∧ h < ctr + 2 + k then 1 else 0)
                + countF (execA estr emsg args rest (ctr + 2 + k)).1 h := by
            rw [countF_append, countF_append, countF_append, countF_prep, hev, hal,
              countF_allocMap, countF_freeMap, count_range']
            omega
          constructor
          · rw [hca, hcf, hbal]
          · rw [hca]
            split_ifs at hle ⊢ <;> omega
        · rw [if_neg hstep] at he0
          rw [he0]
          dsimp only
          refine ⟨by omega, fun h => ?_⟩
          have hca : countA (prepEvents ctr ++ (connBind sub.names args (ctr + 2)).events
              ++ (connBind sub.names args (ctr + 2)).allocs.map MemEvent.free) h
              = (if ctr ≤ h ∧ h < ctr + 2 then 1 else 0)
                + (if ctr + 2 ≤ h ∧ h < ctr + 2 + k then 1 else 0) := by
            rw [countA_append, countA_append, countA_prep, hev, hal,
              countA_allocMap, count_range', countA_freeMap]
            omega
          have hcf : countF (prepEvents ctr ++ (connBind sub.names args (ctr + 2)).events
              ++ (connBind sub.names args (ctr + 2)).allocs.map MemEvent.free) h
              = (if ctr ≤ h ∧ h < ctr + 2 then 1 else 0)
                + (if ctr + 2 ≤ h ∧ h < ctr + 2 + k then 1 else 0) := by
            rw [countF_append, countF_append, countF_prep, hev, hal,
              countF_allocMap, countF_freeMap, count_range']
            omega
          constructor
          · rw [hca, hcf]
          · rw [hca]
            split_ifs <;> omega
      · obtain ⟨hal, hev⟩ := hfail (by rw [hb]; exact fun hcon => Option.noConfusion hcon)
        have he0 : execA estr emsg args (sub :: rest) ctr
            = (prepEvents ctr ++ (connBind sub.names args (ctr + 2)).events,
               ctr + 2 + k, some e) := by
          rw [execA, if_neg hnil, hb, hknext]
        rw [he0]
        dsimp only
        refine ⟨by omega, fun h => ?_⟩
        have hca : countA (prepEvents ctr ++ (connBind sub.names args (ctr + 2)).events) h
            = (if ctr ≤ h ∧ h < ctr + 2 then 1 else 0)
              + (if ctr + 2 ≤ h ∧ h < ctr + 2 + k then 1 else 0) := by
          rw [hev, countA_append, countA_append, countA_prep,
            countA_allocMap, count_range', countA_freeMap]
          omega
        have hcf : countF (prepEvents ctr ++ (connBind sub.names args (ctr + 2)).events) h
            = (if ctr ≤ h ∧ h < ctr + 2 then 1 else 0)
              + (if ctr + 2 ≤ h ∧ h < ctr + 2 + k then 1 else 0) := by
          rw [hev, countF_append, countF_append, countF_prep,
            countF_allocMap, countF_freeMap, count_range']
          omega
        constructor
        · rw [hca, hcf]
        · rw [hca]
          split_ifs <;> omega

theorem queryALoop_inv (estr emsg : String) (args : List NamedValue) :
    ∀ (subs : List SubA) (ctr : Nat) (allocs : List Nat) (r : Option RowsA),
      (∀ h2 ∈ allocs, h2 < ctr) → allocs.Nodup →
      (∀ rv, r = some rv → rv.allocs.Nodup ∧ ∀ h2 ∈ rv.allocs, h2 ∈ allocs) →
      ctr ≤ (queryALoop estr emsg args subs ctr allocs r).2.1 ∧
      ∀ rv, (queryALoop estr emsg args subs ctr allocs r).2.2 = QOutA.ok rv →
        rv.allocs.Nodup ∧
        ∀ h2 ∈ rv.allocs, h2 < (queryALoop estr emsg args subs ctr allocs r).2.1 ∧
          (h2 ∈ allocs ∨ ctr ≤ h2) ∧
          countF (queryALoop estr emsg args subs ctr allocs r).1 h2 = 0 := by
  intro subs
  induction subs with
  | nil =>
    intro ctr allocs r hal hnd hr
    refine ⟨Nat.le_refl _, fun rv hout => ?_⟩
    match r, hr with
    | none, _ => exact absurd hout (by simp [queryALoop])
    | some rv0, hr =>
      have hout2 : rv0 = rv := by
        have : (queryALoop estr emsg args [] ctr allocs (some rv0)).2.2
            = QOutA.ok rv0 := rfl
        rw [this] at hout
        exact QOutA.ok.inj hout
      subst hout2
      obtain ⟨hndv, hsub⟩ := hr rv0 rfl
      refine ⟨hndv, fun h2 hh2 => ⟨?_, Or.inl (hsub h2 hh2), rfl⟩⟩
      exact hal h2 (hsub h2 hh2)
  | cons sub rest ih =>
    intro ctr allocs r hal hnd hr
    by_cases hnil : sub.nilStmt = true
    · have he : queryALoop estr emsg args (sub :: rest) ctr allocs r
          = (prepEvents ctr ++ (queryALoop estr emsg args rest (ctr + 2) allocs r).1,
             (queryALoop estr emsg args rest (ctr + 2) allocs r).2.1,
             (queryALoop estr emsg args rest (ctr + 2) allocs r).2.2) := by
        rw [queryALoop, if_pos hnil]
      obtain ⟨hnext, hok⟩ := ih (ctr + 2) allocs r
        (fun h2 hh2 => by have := hal h2 hh2; omega) hnd hr
      rw [he]
      dsimp only
      refine ⟨by omega, fun rv hout => ?_⟩
      obtain ⟨hndv, hprop⟩ := hok rv hout
      refine ⟨hndv, fun h2 hh2 => ?_⟩
      obtain ⟨hlt, hloc, hfree⟩ := hprop h2 hh2
      refine ⟨hlt, by rcases hloc with hin | hge; exact Or.inl hin; exact Or.inr (by omega), ?_⟩
      rw [countF_append, countF_prep, hfree]
      have hne : ¬(ctr ≤ h2 ∧ h2 < ctr + 2) := by
        rcases hloc with hin | hge
        · have := hal h2 hin; omega
        · omega
      rw [if_neg hne]
    · rcases connBind_shape sub.names args (ctr + 2) with ⟨k, hknext, hsucc, hfail⟩
      rcases hb : (connBind sub.names args (ctr + 2)).err with _ | e
      · obtain ⟨halq, hev⟩ := hsucc hb
        have hmemb : ∀ h2 ∈ (connBind sub.names args (ctr + 2)).allocs,
            ctr + 2 ≤ h2 ∧ h2 < ctr + 2 + k := by
          intro h2 hh2
          rw [halq] at hh2
          exact List.mem_range'_1.mp hh2
        have hal2 : ∀ h2 ∈ allocs ++ (connBind sub.names args (ctr + 2)).allocs,
            h2 < ctr + 2 + k := by
          intro h2 hh2
          rcases List.mem_append.mp hh2 with hin | hin
          · have := hal h2 hin; omega
          · exact (hmemb h2 hin).2
        have hnd2 : (allocs ++ (connBind sub.names args (ctr + 2)).allocs).Nodup := by
          rw [List.nodup_append]
          refine ⟨hnd, by rw [halq]; exact List.nodup_range' _ _, ?_⟩
          intro a hina hinb
          have h1 := hal a hina
          have h2 := (hmemb a hinb).1
          omega
        have he0 : queryALoop estr emsg args (sub :: rest) ctr allocs r
            = if sub.stepRC % 256 = 100 then
                (prepEvents ctr ++ (connBind sub.names args (ctr + 2)).events
                   ++ (queryALoop estr emsg args rest (ctr + 2 + k)
                        (allocs ++ (connBind sub.names args (ctr + 2)).allocs)
                        (some ⟨sub.handle,
                          allocs ++ (connBind sub.names args (ctr + 2)).allocs⟩)).1,
                 (queryALoop estr emsg args rest (ctr + 2 + k)
                        (allocs ++ (connBind sub.names args (ctr + 2)).allocs)
                        (some ⟨sub.handle,
                          allocs ++ (connBind sub.names args (ctr + 2)).allocs⟩)).2.1,
                 (queryALoop estr emsg args rest (ctr + 2 + k)
                        (allocs ++ (connBind sub.names args (ctr + 2)).allocs)
                        (some ⟨sub.handle,
                          allocs ++ (connBind sub.names args (ctr + 2)).allocs⟩)).2.2)
              else if sub.stepRC % 256 = 101 then
                (prepEvents ctr ++ (connBind sub.names args (ctr + 2)).events
                   ++ (queryALoop estr emsg args rest (ctr + 2 + k)
                        (allocs ++ (connBind sub.names args (ctr + 2)).allocs) r).1,
                 (queryALoop estr emsg args rest (ctr + 2 + k)
                        (allocs ++ (connBind sub.names args (ctr + 2)).allocs) r).2.1,
                 (queryALoop estr emsg args rest (ctr + 2 + k)
                        (allocs ++ (connBind sub.names args (ctr + 2)).allocs) r).2.2)
              else
                (prepEvents ctr ++ (connBind sub.names args (ctr + 2)).events,
                 ctr + 2 + k,
                 QOutA.err (errstr estr emsg sub.stepRC).msg) := by
          rw [queryALoop, if_neg hnil, hb, hknext]
        by_cases h100 : sub.stepRC % 256 = 100
        · rw [if_pos h100] at he0
          obtain ⟨hnext, hok⟩ := ih (ctr + 2 + k)
            (allocs ++ (connBind sub.names args (ctr + 2)).allocs)
            (some ⟨sub.handle, allocs ++ (connBind sub.names args (ctr + 2)).allocs⟩)
            hal2 hnd2
            (fun rv hrv => by
              cases Option.some.inj hrv
              exact ⟨hnd2, fun h2 hh2 => hh2⟩)
          rw [he0]
          dsimp only
          refine ⟨by omega, fun rv hout => ?_⟩
          obtain ⟨hndv, hprop⟩ := hok rv hout
          refine ⟨hndv, fun h2 hh2 => ?_⟩
          obtain ⟨hlt, hloc, hfree⟩ := hprop h2 hh2
          have hloc2 : h2 ∈ allocs ∨ ctr ≤ h2 := by
            rcases hloc with hin | hge
            · rcases List.mem_append.mp hin with hin2 | hin2
              · exact Or.inl hin2
              · exact Or.inr (by have := (hmemb h2 hin2).1; omega)
            · exact Or.inr (by omega)
          refine ⟨hlt, hloc2, ?_⟩
          rw [countF_append, countF_append, countF_prep, hev, countF_allocMap, hfree]
          have hne : ¬(ctr ≤ h2 ∧ h2 < ctr + 2) := by
            rcases hloc with hin | hge
            · rcases List.mem_append.mp hin with hin2 | hin2
              · have := hal h2 hin2; omega
              · have := (hmemb h2 hin2).1; omega
            · omega
          rw [if_neg hne]
        · by_cases h101 : sub.stepRC % 256 = 101
          · rw [if_neg h100, if_pos h101] at he0
            obtain ⟨hnext, hok⟩ := ih (ctr + 2 + k)
              (allocs ++ (connBind sub.names args (ctr + 2)).allocs) r
              hal2 hnd2
              (fun rv hrv => by
                obtain ⟨hndv, hsub⟩ := hr rv hrv
                exact ⟨hndv, fun h2 hh2 => List.mem_append.mpr (Or.inl (hsub h2 hh2))⟩)
            rw [he0]
            dsimp only
            refine ⟨by omega, fun rv hout => ?_⟩
            obtain ⟨hndv, hprop⟩ := hok rv hout
            refine ⟨hndv, fun h2 hh2 => ?_⟩
            obtain ⟨hlt, hloc, hfree⟩ := hprop h2 hh2
            have hloc2 : h2 ∈ allocs ∨ ctr ≤ h2 := by
              rcases hloc with hin | hge
              · rcases List.mem_append.mp hin with hin2 | hin2
                · exact Or.inl hin2
                · exact Or.inr (by have := (hmemb h2 hin2).1; omega)
              · exact Or.inr (by omega)
            refine ⟨hlt, hloc2, ?_⟩
            rw [countF_append, countF_append, countF_prep, hev, countF_allocMap, hfree]
            have hne : ¬(ctr ≤ h2 ∧ h2 < ctr + 2) := by
              rcases hloc with hin | hge
              · rcases List.mem_append.mp hin with hin2 | hin2
                · have := hal h2 hin2; omega
                · have := (hmemb h2 hin2).1; omega
              · omega
            rw [if_neg hne]
          · rw [if_neg h100, if_neg h101] at he0
            rw [he0]
            dsimp only
            exact ⟨by omega, fun rv hout => by simp at hout⟩
      · have he0 : queryALoop estr emsg args (sub :: rest) ctr allocs r
            = (prepEvents ctr ++ (connBind sub.names args (ctr + 2)).events,
               ctr + 2 + k, QOutA.err e) := by
          rw [queryALoop, if_neg hnil, hb, hknext]
        rw [he0]
        dsimp only
        exact ⟨by omega, fun rv hout => by simp at hout⟩

/-- C7 (amended): for every Exec call trace, every boundary allocation made
during the call (the prepare output-pointer cells and every bound
blob/text buffer) is freed exactly once on every exit path: in the event
trace each handle has equally many allocations and frees, and is
allocated at most once; a bind that fails frees every buffer it had
already allocated and hands none back; and the buffers adopted by a Rows
cursor returned from Query are not freed during the Query call and are
freed exactly once by Rows.Close.  (A Query call that fails after earlier
sub-statements bound buffers does not free those buffers; see the
counterexample.) -/
theorem alloc_free_discipline (estr emsg : String) (args : List NamedValue)
    (subs : List SubA) (names : List String) (ctr : Nat) :
    (∀ h, countA (execA estr emsg args subs 0).1 h
            = countF (execA estr emsg args subs 0).1 h ∧
          countA (execA estr emsg args subs 0).1 h ≤ 1) ∧
    ((connBind names args ctr).err ≠ none →
      (connBind names args ctr).allocs = [] ∧
      ∀ h, countA (connBind names args ctr).events h
              = countF (connBind names args ctr).events h ∧
           countA (connBind names args ctr).events h ≤ 1) ∧
    (∀ rv, (queryA estr emsg args subs).2.2 = QOutA.ok rv →
      rv.allocs.Nodup ∧
      ∀ h ∈ rv.allocs,
        countF (queryA estr emsg args subs).1 h = 0 ∧
        countF ((queryA estr emsg args subs).1 ++ closeRowsA rv) h = 1) := by
  refine ⟨?_, ?_, ?_⟩
  · intro h
    obtain ⟨hnext, hall⟩ := execA_inv estr emsg args subs 0
    obtain ⟨hbal, hle⟩ := hall h
    refine ⟨hbal, ?_⟩
    split_ifs at hle <;> omega
  · intro herr
    rcases connBind_shape names args ctr with ⟨k, hknext, hsucc, hfail⟩
    obtain ⟨hal, hev⟩ := hfail herr
    refine ⟨hal, fun h => ?_⟩
    have hca : countA (connBind names args ctr).events h
        = if ctr ≤ h ∧ h < ctr + k then 1 else 0 := by
      rw [hev, countA_append, countA_allocMap, count_range', countA_freeMap]
      omega
    have hcf : countF (connBind names args ctr).events h
        = if ctr ≤ h ∧ h < ctr + k then 1 else 0 := by
      rw [hev, countF_append, countF_allocMap, countF_freeMap, count_range']
      omega
    rw [hca, hcf]
    refine ⟨rfl, ?_⟩
    split_ifs <;> omega
  · intro rv hout
    rw [queryA] at hout
    obtain ⟨hnext, hok⟩ := queryALoop_inv estr emsg args subs 0 [] none
      (fun h2 hh2 => absurd hh2 (List.not_mem_nil h2))
      List.nodup_nil
      (fun rv2 hrv2 => by simp at hrv2)
    obtain ⟨hndv, hprop⟩ := hok rv hout
    refine ⟨hndv, fun h hh => ?_⟩
    obtain ⟨hlt, hloc, hfree⟩ := hprop h hh
    rw [queryA]
    refine ⟨hfree, ?_⟩
    rw [countF_append, hfree, closeRowsA, countF_freeMap, Nat.zero_add]
    exact List.count_eq_one_of_mem hndv hh

/-- Witness: a failing bind (unnamed placeholder, no arguments) returns no
allocations; a one-SELECT query adopting a text-buffer allocation (handle
2) never frees it during the call, and its Rows.Close frees it exactly
once. -/
theorem alloc_free_discipline_witness :
    ((connBind [""] [] 0).err ≠ none ∧ (connBind [""] [] 0).allocs = []) ∧
    ((queryA "x" "y" [⟨"", 1, DrvValue.text "a"⟩] [⟨false, 9, [""], 100⟩]).2.2
        = QOutA.ok ⟨9, [2]⟩ ∧
      countF (queryA "x" "y" [⟨"", 1, DrvValue.text "a"⟩] [⟨false, 9, [""], 100⟩]).1 2 = 0 ∧
      countF ((queryA "x" "y" [⟨"", 1, DrvValue.text "a"⟩] [⟨false, 9, [""], 100⟩]).1
          ++ closeRowsA ⟨9, [2]⟩) 2 = 1) := by
  have hb := (alloc_free_discipline "x" "y" [] [] [""] 0).2.1 (by decide)
  have hq := (alloc_free_discipline "x" "y" [⟨"", 1, DrvValue.text "a"⟩]
      [⟨false, 9, [""], 100⟩] [""] 0).2.2 ⟨9, [2]⟩ (by decide)
  have hm := hq.2 2 (by decide)
  exact ⟨⟨by decide, hb.1⟩, by decide, hm.1, hm.2⟩

/-- C7 counterexample: a Query over two sub-statements — the first binds a
text argument (allocating buffer handle 2) and steps to DONE, the second
fails — exits with an error while buffer 2 was allocated once and freed
zero times: the claimed freed-exactly-once discipline fails on this exit
path. -/
theorem queryA_leak_counterexample :
    (queryA "x" "y" [⟨"", 1, DrvValue.text "a"⟩]
        [⟨false, 11, [""], 101⟩, ⟨false, 12, [], 1⟩]).2.2
      = QOutA.err (errstr "x" "y" 1).msg ∧
    countA (queryA "x" "y" [⟨"", 1, DrvValue.text "a"⟩]
        [⟨false, 11, [""], 101⟩, ⟨false, 12, [], 1⟩]).1 2 = 1 ∧
    countF (queryA "x" "y" [⟨"", 1, DrvValue.text "a"⟩]
        [⟨false, 11, [""], 101⟩, ⟨false, 12, [], 1⟩]).1 2 = 0 := by
  refine ⟨by decide, by decide, by decide⟩

end GoSqlite
